import Mathlib

/-!
Shallow embedding of `bendfords_law/helpers.py`, the digit-extraction and
Benford-distribution engine of the repository, together with theorems that
settle the specification claims about it.  Python integers are modelled by
`Int`/`Nat`, raised exceptions by `Except PyError`, and the float64 numpy
arrays by lists whose elements record the exact mathematical value stored.
-/

namespace BendfordsLaw

/-- Kinds of Python exception raised by the embedded functions. -/
inductive PyError where
  | valueError : String → PyError
  | indexError : String → PyError
  | typeError : String → PyError
deriving DecidableEq

/-- A Python value handed to digit extraction: an integer (the data model
restricts sequences to non-negative integers), or a value of some
non-integral type, tagged with the name of that type.  `get_digits` only
inspects whether the value is integral, so the tag is all the model needs
of a non-integral value. -/
inductive PyVal where
  | intVal : Nat → PyVal
  | nonInt : String → PyVal
deriving DecidableEq

/-- Little-endian decimal digits of the second argument, by structural
recursion on a fuel argument; any fuel at least the argument itself yields
the full digit list (shown equal to `Nat.digits 10` below). -/
def digitsLE : Nat → Nat → List Nat
  | 0, _ => []
  | fuel + 1, n => if n = 0 then [] else n % 10 :: digitsLE fuel (n / 10)

/-- `int_to_digits`: the digits of the decimal representation of `integer`,
most significant first, produced in the source by iterating over
`str(integer)`.  `str(0)` is `"0"`, hence the zero case. -/
def int_to_digits (integer : Nat) : List Nat :=
  if integer = 0 then [0] else (digitsLE integer integer).reverse

/-- Left-to-right effectful map over a list that stops at the first raised
exception, as a Python list comprehension does. -/
def mapE (f : α → Except PyError β) : List α → Except PyError (List β)
  | [] => .ok []
  | x :: xs =>
    match f x with
    | .error e => .error e
    | .ok y =>
      match mapE f xs with
      | .error e => .error e
      | .ok ys => .ok (y :: ys)

/-- `get_digits`: raises `ValueError` (with the message built from the type
name of the offending value) when `isinstance(number, (int, np.integer))`
fails, then indexes the digit list at each requested non-negative index,
raising `IndexError` when an index is out of range. -/
def get_digits (number : PyVal) (indices : List Nat) : Except PyError (List Nat) :=
  match number with
  | .nonInt tname =>
      .error (.valueError ("Number must be an integer, but found type " ++ tname ++ "."))
  | .intVal n =>
      let digits := int_to_digits n
      mapE (fun index =>
        if h : index < digits.length then .ok (digits.get ⟨index, h⟩)
        else .error (.indexError "list index out of range")) indices

/-- `fib_number`: raises `ValueError` for `n < 0`, returns `n` itself for
`n < 2`, and otherwise applies the recurrence, evaluating the `n - 1` call
before the `n - 2` call as Python does. -/
def fib_number (n : Int) : Except PyError Int :=
  if n < 0 then .error (.valueError "N cannot be less than 0.")
  else if n < 2 then .ok n
  else
    match fib_number (n - 1), fib_number (n - 2) with
    | .ok a, .ok b => .ok (a + b)
    | .error e, _ => .error e
    | _, .error e => .error e
termination_by n.toNat
decreasing_by
  all_goals omega

/-- Binary length of the second argument, by structural recursion on a
fuel argument (any fuel at least the length gives the length). -/
def bitLenAux : Nat → Nat → Nat
  | 0, _ => 0
  | fuel + 1, n => if n = 0 then 0 else bitLenAux fuel (n / 2) + 1

/-- Number of binary digits of `n` (0 for 0). -/
def bitLen (n : Nat) : Nat := bitLenAux n n

/-- Rounding of a natural number to the value of the nearest IEEE-754
binary64 float (53-bit significand, ties to even): `numpy` performs exactly
this conversion when a Python integer is stored into a `float64` array. -/
def float64OfNat (n : Nat) : Nat :=
  if n ≤ 2 ^ 53 then n
  else
    let k := bitLen n - 53
    let q := n / 2 ^ k
    let r := n % 2 ^ k
    let q2 :=
      if 2 * r < 2 ^ k then q
      else if 2 ^ k < 2 * r then q + 1
      else if q % 2 = 0 then q else q + 1
    q2 * 2 ^ k

/-- Sign-symmetric extension of `float64OfNat` to the integers. -/
def float64OfInt (i : Int) : Int :=
  if i < 0 then -(float64OfNat i.natAbs : Int) else (float64OfNat i.natAbs : Int)

/-- `fib_sequence`: fills a fresh `np.zeros(n_elements)` float64 array with
`fib_number(0) .. fib_number(n_elements - 1)`; each integer is rounded to
its float64 value when stored.  The list records the values of the array
slots in order. -/
def fib_sequence (n_elements : Nat) : Except PyError (List Int) :=
  mapE (fun i : Nat => (fib_number (i : Int)).map float64OfInt) (List.range n_elements)

/-- The body of the list comprehension in `digit_occurrences`:
`get_digits(number, [digit_index])[0]`.  The result of `get_digits` on a
one-element index list always has length one, so taking its head never
falls back to the default. -/
def digit_at (number digit_index : Nat) : Except PyError Nat :=
  match get_digits (.intVal number) [digit_index] with
  | .error e => .error e
  | .ok ds => .ok (ds.headD 0)

/-- Keys of the digit `Counter` after the optional `pop(0, None)`, sorted
ascending: `Counter` keys are the distinct extracted digits (modelled by
`dedup`; the key order before sorting does not affect the sorted result),
and `sorted(..., key = lambda tup: tup[0])` orders pairs by digit value. -/
def sortedKeys (first_digits_list : List Nat) (exclude_zero : Bool) : List Nat :=
  (if exclude_zero then first_digits_list.dedup.filter (fun d => d != 0)
   else first_digits_list.dedup).insertionSort (· ≤ ·)

/-- The sorted (digit, count) pairs that `digit_occurrences` turns into
`np.array(sorted_pairs)`. -/
def sortedDigitPairs (first_digits_list : List Nat) (exclude_zero : Bool) : List (Nat × Nat) :=
  (sortedKeys first_digits_list exclude_zero).map
    (fun d => (d, first_digits_list.count d))

/-- `digit_occurrences`: extracts the digit at `digit_index` from every
element of the sequence, tallies occurrences per digit value (`Counter`),
pops the tally for digit 0 when `exclude_zero`, sorts the (digit, count)
pairs by digit value, and splits the resulting array into its two columns.
Column slicing of an empty array raises `IndexError`, as
`np.array([])[:, 0]` does. -/
def digit_occurrences (sequence : List Nat) (digit_index : Nat) (exclude_zero : Bool) :
    Except PyError (List Nat × List Nat) :=
  (mapE (fun number => digit_at number digit_index) sequence).bind fun first_digits_list =>
    if sortedDigitPairs first_digits_list exclude_zero = [] then
      .error (.indexError "too many indices for array")
    else
      .ok ((sortedDigitPairs first_digits_list exclude_zero).map Prod.fst,
           (sortedDigitPairs first_digits_list exclude_zero).map Prod.snd)

/-- True when a digit-extraction result is a raised `TypeError`. -/
def raisedTypeError (r : Except PyError (List Nat)) : Bool :=
  match r with
  | .error (.typeError _) => true
  | _ => false

instance {ε α : Type} [DecidableEq ε] [DecidableEq α] : DecidableEq (Except ε α) := fun x y =>
  match x, y with
  | .ok a, .ok b =>
      if h : a = b then .isTrue (congrArg Except.ok h)
      else .isFalse (fun hc => h (Except.ok.inj hc))
  | .error e, .error f =>
      if h : e = f then .isTrue (congrArg Except.error h)
      else .isFalse (fun hc => h (Except.error.inj hc))
  | .ok _, .error _ => .isFalse (fun hc => Except.noConfusion hc)
  | .error _, .ok _ => .isFalse (fun hc => Except.noConfusion hc)

/-- Value of a numpy float computation as reached by `bendford_dist` on
integer digit arrays: a finite real value, or positive infinity (produced
by `1 / 0` under numpy true division, which emits a runtime warning and
yields `inf` instead of raising).  Negative infinity and nan never arise
on these inputs, so the model omits them. -/
inductive NpFloat where
  | fin : ℝ → NpFloat
  | inf : NpFloat

/-- numpy elementwise addition on the fragment reached here: adding
anything to infinity gives infinity. -/
def NpFloat.add : NpFloat → NpFloat → NpFloat
  | .fin x, .fin y => .fin (x + y)
  | _, _ => .inf

/-- `np.log` on the fragment reached here: every finite operand produced
below is at least 1, and `np.log(inf) = inf`. -/
noncomputable def NpFloat.logE : NpFloat → NpFloat
  | .fin x => .fin (Real.log x)
  | .inf => .inf

/-- Division of a numpy value by a positive finite scalar (here `log 10`):
`inf / c = inf` for positive finite `c`. -/
noncomputable def NpFloat.divByPos : NpFloat → ℝ → NpFloat
  | .fin x, c => .fin (x / c)
  | .inf, _ => .inf

/-- numpy true division `1 / d` of an integer digit `d`: yields `inf` at
`d = 0` (with a divide-by-zero warning, not an exception). -/
noncomputable def np_recip (d : Nat) : NpFloat :=
  if d = 0 then .inf else .fin (1 / (d : ℝ))

/-- The inner helper `log_n` of `bendford_dist`: log base `n` computed via
the base-switching identity `np.log(x) / np.log(n)`. -/
noncomputable def log_n (x : NpFloat) (n : Nat) : NpFloat :=
  x.logE.divByPos (Real.log (n : ℝ))

/-- `bendford_dist`: elementwise `log_n(1 + (1 / digits))` at the default
base 10, with no validation of the digit values. -/
noncomputable def bendford_dist (digits : List Nat) : List NpFloat :=
  digits.map fun d => log_n ((NpFloat.fin 1).add (np_recip d)) 10

/-- Wrap an integer to the signed 64-bit range, as numpy int64 arithmetic
silently does on overflow. -/
def wrapInt64 (x : Int) : Int :=
  (x + 2 ^ 63) % 2 ^ 64 - 2 ^ 63

/-- `np.arange(a, b)` on int64 scalars: the integers from `a` up to but
excluding `b`, empty when `b ≤ a`. -/
def npArange (a b : Int) : List Int :=
  (List.range (b - a).toNat).map (fun i : Nat => a + (i : Int))

/-- `bendford_dist_`: validates the order, computes the digit-group domain
`np.arange(np.power(10, order - 1), np.power(10, order))` in wrapping int64
arithmetic — `np.power(10, 19)` overflows to a negative value, emptying the
domain at order 19 — and returns `np.log10(1 + 1 / digit_combinations)`
over it.  The real-valued entry model is exact on every order the theorems
below evaluate: up to order 18 every group is a positive integer, and at
order 19 the domain is empty. -/
noncomputable def bendford_dist_ (order : Int) : Except PyError (List ℝ) :=
  if order < 1 then .error (.valueError "Order cannot be less than 1.")
  else
    .ok ((npArange (wrapInt64 (10 ^ (order.toNat - 1))) (wrapInt64 (10 ^ order.toNat))).map
      (fun g : Int => Real.logb 10 (1 + 1 / (g : ℝ))))

theorem digitsLE_eq_digits : ∀ fuel n : Nat, n ≤ fuel → digitsLE fuel n = Nat.digits 10 n
  | 0, n, h => by
    have : n = 0 := Nat.le_zero.mp h
    simp [digitsLE, this]
  | fuel + 1, n, h => by
    rcases Nat.eq_zero_or_pos n with h0 | h0
    · simp [digitsLE, h0]
    · have hrec : n / 10 ≤ fuel := by
        have := Nat.div_lt_self h0 (by norm_num : 1 < 10)
        omega
      rw [digitsLE, if_neg (by omega), digitsLE_eq_digits fuel (n / 10) hrec,
        Nat.digits_def' (by norm_num : 1 < 10) h0]

/-- `int_to_digits` agrees with the big-endian reading of `Nat.digits 10`,
so its length is the decimal digit count of its argument. -/
theorem int_to_digits_eq (n : Nat) :
    int_to_digits n = if n = 0 then [0] else (Nat.digits 10 n).reverse := by
  rw [int_to_digits, digitsLE_eq_digits n n le_rfl]

theorem fib_number_ofNat : ∀ n : Nat, fib_number (n : Int) = .ok (Nat.fib n)
  | 0 => by rw [fib_number]; norm_num
  | 1 => by rw [fib_number]; norm_num
  | (m + 2) => by
    rw [fib_number]
    have hc0 : ¬ ((m + 2 : Nat) : Int) < 0 := by push_cast; omega
    have hc2 : ¬ ((m + 2 : Nat) : Int) < 2 := by push_cast; omega
    rw [if_neg hc0, if_neg hc2]
    have h1 : ((m + 2 : Nat) : Int) - 1 = ((m + 1 : Nat) : Int) := by push_cast; ring
    have h2 : ((m + 2 : Nat) : Int) - 2 = ((m : Nat) : Int) := by push_cast; ring
    rw [h1, h2, fib_number_ofNat (m + 1), fib_number_ofNat m]
    have : Nat.fib (m + 2) = Nat.fib m + Nat.fib (m + 1) := Nat.fib_add_two
    simp [this, add_comm]

theorem mapE_congr_ok {α β : Type} {f : α → Except PyError β} {g : α → β} :
    ∀ l : List α, (∀ x ∈ l, f x = .ok (g x)) → mapE f l = .ok (l.map g)
  | [], _ => rfl
  | x :: xs, h => by
    have hx := h x (List.mem_cons_self x xs)
    have hxs := mapE_congr_ok xs (fun y hy => h y (List.mem_cons_of_mem x hy))
    simp [mapE, hx, hxs]

theorem fib_sequence_eq (n : Nat) :
    fib_sequence n = .ok ((List.range n).map fun i => float64OfInt (Nat.fib i)) := by
  rw [fib_sequence]
  apply mapE_congr_ok
  intro i _
  rw [fib_number_ofNat i]
  rfl

theorem float64OfNat_eq_self {n : Nat} (h : n ≤ 2 ^ 53) : float64OfNat n = n := by
  rw [float64OfNat, if_pos h]

theorem float64OfInt_ofNat {n : Nat} (h : n ≤ 2 ^ 53) : float64OfInt (n : Int) = (n : Int) := by
  rw [float64OfInt, if_neg (by omega), Int.natAbs_ofNat, float64OfNat_eq_self h]

/-- C1 (amended): for every count at most 79 — the range on which every
Fibonacci number involved fits exactly in a float64 — `fib_sequence count`
returns exactly F(0) .. F(count - 1), in order and of length count; the
function is a pure function of count, hence deterministic and restartable. -/
theorem fib_sequence_exact_upto_79 (count : Nat) (h : count ≤ 79) :
    fib_sequence count = .ok ((List.range count).map fun i => (Nat.fib i : Int)) := by
  rw [fib_sequence_eq]
  congr 1
  apply List.map_congr_left
  intro i hi
  rw [List.mem_range] at hi
  have hle : Nat.fib i ≤ Nat.fib 78 := Nat.fib_mono (by omega)
  have h53 : Nat.fib i ≤ 2 ^ 53 := le_trans hle (by decide)
  exact float64OfInt_ofNat h53

set_option maxRecDepth 40000 in
/-- C1 as stated is false: at count = 80 the slot at index 79 of the
float64 array returned by `fib_sequence 80` holds 14472334024676220, the
float64 rounding of F(79) = 14472334024676221, so the result differs from
F(0) .. F(79); the boolean comparison of the two evaluates to false. -/
theorem fib_sequence_80_not_fib :
    (fib_sequence 80 == .ok ((List.range 80).map fun i => (Nat.fib i : Int))) = false := by
  rw [fib_sequence_eq]
  decide

/-- Witness for the amended C1 at count = 10. -/
theorem fib_sequence_exact_upto_79_w :
    10 ≤ 79 ∧ fib_sequence 10 = .ok ((List.range 10).map fun i => (Nat.fib i : Int)) :=
  ⟨by decide, fib_sequence_exact_upto_79 10 (by decide)⟩

/-- C6: for n ≥ 0, `fib_number n` returns the nth Fibonacci number of the
standard recurrence F(0) = 0, F(1) = 1, F(n) = F(n-1) + F(n-2) (Mathlib
`Nat.fib`), and for n < 0 it raises `ValueError`. -/
theorem fib_number_spec (n : Int) :
    (0 ≤ n → fib_number n = .ok (Nat.fib n.toNat)) ∧
    (n < 0 → fib_number n = .error (.valueError "N cannot be less than 0.")) := by
  constructor
  · intro h0
    have h := fib_number_ofNat n.toNat
    rwa [Int.toNat_of_nonneg h0] at h
  · intro hneg
    rw [fib_number, if_pos hneg]

/-- Witness for C6 at n = 10 and n = -1. -/
theorem fib_number_spec_w :
    (0 ≤ (10 : Int) ∧ fib_number 10 = .ok (Nat.fib (10 : Int).toNat)) ∧
    ((-1 : Int) < 0 ∧ fib_number (-1) = .error (.valueError "N cannot be less than 0.")) :=
  ⟨⟨by decide, (fib_number_spec 10).1 (by decide)⟩,
   ⟨by decide, (fib_number_spec (-1)).2 (by decide)⟩⟩

/-- C2 is false as stated: on a non-integral input, `get_digits` raises a
`ValueError` built from the type name of the offending value, not a
`TypeError`. -/
theorem get_digits_float_cex :
    get_digits (.nonInt "float") [0] =
      .error (.valueError "Number must be an integer, but found type float.") ∧
    raisedTypeError (get_digits (.nonInt "float") [0]) = false :=
  ⟨rfl, rfl⟩

/-- C2 (amended): for every input value that is not of an integral type,
digit extraction fails immediately with a `ValueError` (not a `TypeError`)
naming the offending type. -/
theorem get_digits_nonint_valueerror (tname : String) (indices : List Nat) :
    get_digits (.nonInt tname) indices =
      .error (.valueError ("Number must be an integer, but found type " ++ tname ++ ".")) :=
  rfl

theorem ok_bind {α β : Type} (a : α) (f : α → Except PyError β) :
    (Except.ok a : Except PyError α).bind f = f a := rfl

theorem sortedKeys_nodup (fd : List Nat) (ez : Bool) : (sortedKeys fd ez).Nodup := by
  rw [sortedKeys]
  apply (List.perm_insertionSort _ _).nodup_iff.mpr
  cases ez
  · simpa using fd.nodup_dedup
  · simpa using (fd.nodup_dedup).filter _

theorem sortedKeys_sorted (fd : List Nat) (ez : Bool) :
    List.Sorted (· < ·) (sortedKeys fd ez) :=
  (List.sorted_insertionSort _ _).lt_of_le (sortedKeys_nodup fd ez)

theorem sortedKeys_perm (fd : List Nat) (ez : Bool) :
    List.Perm (sortedKeys fd ez)
      (if ez then fd.dedup.filter (fun d => d != 0) else fd.dedup) :=
  List.perm_insertionSort _ _

theorem sortedDigitPairs_fst (fd : List Nat) (ez : Bool) :
    (sortedDigitPairs fd ez).map Prod.fst = sortedKeys fd ez := by
  rw [sortedDigitPairs, List.map_map]
  simp [Function.comp_def]

theorem sortedDigitPairs_snd (fd : List Nat) (ez : Bool) :
    (sortedDigitPairs fd ez).map Prod.snd = (sortedKeys fd ez).map (fun d => fd.count d) := by
  rw [sortedDigitPairs, List.map_map]
  rfl

theorem sortedDigitPairs_sum (fd : List Nat) (ez : Bool) :
    ((sortedDigitPairs fd ez).map Prod.snd).sum = fd.countP (fun d => !(ez && d == 0)) := by
  rw [sortedDigitPairs_snd]
  rw [((sortedKeys_perm fd ez).map (fun d => fd.count d)).sum_eq]
  cases ez
  · simpa using fd.sum_map_count_dedup_eq_length
  · simpa using List.sum_map_count_dedup_filter_eq_countP (fun d => d != 0) fd

/-- C7: whenever `digit_occurrences` returns a pair of arrays, the digit
column is strictly ascending with no duplicates, the two columns have equal
length, each count is positionally the tally of its digit, and the counts
sum to the number of sequence elements whose extracted digit is not
excluded (`fd` being the digits extracted elementwise from the sequence). -/
theorem digit_occurrences_invariants
    (sequence : List Nat) (digit_index : Nat) (exclude_zero : Bool)
    (fd ds cs : List Nat)
    (hfd : mapE (fun number => digit_at number digit_index) sequence = .ok fd)
    (hok : digit_occurrences sequence digit_index exclude_zero = .ok (ds, cs)) :
    List.Sorted (· < ·) ds ∧ ds.length = cs.length ∧
    cs = ds.map (fun d => fd.count d) ∧
    cs.sum = fd.countP (fun d => !(exclude_zero && d == 0)) := by
  rw [digit_occurrences, hfd, ok_bind] at hok
  by_cases hps : sortedDigitPairs fd exclude_zero = []
  · rw [if_pos hps] at hok
    cases hok
  · rw [if_neg hps] at hok
    simp only [Except.ok.injEq, Prod.mk.injEq] at hok
    obtain ⟨hds, hcs⟩ := hok
    have hds2 : ds = sortedKeys fd exclude_zero := by
      rw [← hds, sortedDigitPairs_fst]
    have hcs2 : cs = (sortedKeys fd exclude_zero).map (fun d => fd.count d) := by
      rw [← hcs, sortedDigitPairs_snd]
    refine ⟨?_, ?_, ?_, ?_⟩
    · rw [hds2]; exact sortedKeys_sorted fd exclude_zero
    · rw [hds2, hcs2]; simp
    · rw [hds2, hcs2]
    · rw [hcs2, ← sortedDigitPairs_snd]
      exact sortedDigitPairs_sum fd exclude_zero

/-- Witness for C7 on the sequence 100, 200, ..., 900 at digit index 0 with
zero exclusion. -/
theorem digit_occurrences_invariants_w :
    mapE (fun number => digit_at number 0)
        [100, 200, 300, 400, 500, 600, 700, 800, 900] =
      .ok [1, 2, 3, 4, 5, 6, 7, 8, 9] ∧
    digit_occurrences [100, 200, 300, 400, 500, 600, 700, 800, 900] 0 true =
      .ok ([1, 2, 3, 4, 5, 6, 7, 8, 9], [1, 1, 1, 1, 1, 1, 1, 1, 1]) ∧
    (List.Sorted (· < ·) [1, 2, 3, 4, 5, 6, 7, 8, 9] ∧
     ([1, 2, 3, 4, 5, 6, 7, 8, 9] : List Nat).length =
       ([1, 1, 1, 1, 1, 1, 1, 1, 1] : List Nat).length ∧
     ([1, 1, 1, 1, 1, 1, 1, 1, 1] : List Nat) =
       ([1, 2, 3, 4, 5, 6, 7, 8, 9] : List Nat).map
         (fun d => ([1, 2, 3, 4, 5, 6, 7, 8, 9] : List Nat).count d) ∧
     ([1, 1, 1, 1, 1, 1, 1, 1, 1] : List Nat).sum =
       ([1, 2, 3, 4, 5, 6, 7, 8, 9] : List Nat).countP (fun d => !(true && d == 0))) :=
  ⟨by decide, by decide,
   digit_occurrences_invariants [100, 200, 300, 400, 500, 600, 700, 800, 900] 0 true
     [1, 2, 3, 4, 5, 6, 7, 8, 9] [1, 2, 3, 4, 5, 6, 7, 8, 9] [1, 1, 1, 1, 1, 1, 1, 1, 1]
     (by decide) (by decide)⟩

theorem digit_at_cases (y idx : Nat) :
    (∃ b, digit_at y idx = .ok b) ∨
      digit_at y idx = .error (.indexError "list index out of range") := by
  by_cases h : idx < (int_to_digits y).length
  · exact Or.inl ⟨(int_to_digits y).get ⟨idx, h⟩, by simp [digit_at, get_digits, mapE, dif_pos h]⟩
  · exact Or.inr (by simp [digit_at, get_digits, mapE, dif_neg h])

theorem mapE_error_of_mem {α β : Type} {f : α → Except PyError β} {e : PyError}
    (hcases : ∀ y : α, (∃ b, f y = .ok b) ∨ f y = .error e) :
    ∀ {l : List α} {x : α}, x ∈ l → f x = .error e → mapE f l = .error e := by
  intro l
  induction l with
  | nil => intro x hx _; cases hx
  | cons a as ih =>
    intro x hx hfx
    rcases hcases a with ⟨b, hb⟩ | ha
    · have hxas : x ∈ as := by
        rcases List.mem_cons.mp hx with rfl | h2
        · rw [hfx] at hb; cases hb
        · exact h2
      simp [mapE, hb, ih hxas hfx]
    · simp [mapE, ha]

/-- C8: when the requested digit index is at least the digit count of an
integer, `get_digits` raises `IndexError` rather than returning a default
value, and `digit_occurrences` on any sequence containing such an element
propagates that `IndexError` instead of skipping or zero-padding it. -/
theorem get_digits_index_out_of_range
    (m idx : Nat) (sequence : List Nat) (ez : Bool)
    (hlen : (int_to_digits m).length ≤ idx) (hmem : m ∈ sequence) :
    get_digits (.intVal m) [idx] = .error (.indexError "list index out of range") ∧
    digit_occurrences sequence idx ez = .error (.indexError "list index out of range") := by
  have hga : get_digits (.intVal m) [idx] =
      .error (.indexError "list index out of range") := by
    simp [get_digits, mapE, dif_neg (Nat.not_lt.mpr hlen)]
  have hda : digit_at m idx = .error (.indexError "list index out of range") := by
    simp [digit_at, hga]
  refine ⟨hga, ?_⟩
  rw [digit_occurrences, mapE_error_of_mem (fun y => digit_at_cases y idx) hmem hda]
  rfl

/-- Witness for C8: the 1-digit number 7 at digit index 2, inside the
one-element sequence containing it. -/
theorem get_digits_index_out_of_range_w :
    (int_to_digits 7).length ≤ 2 ∧ (7 : Nat) ∈ [7] ∧
    (get_digits (.intVal 7) [2] = .error (.indexError "list index out of range") ∧
     digit_occurrences [7] 2 true = .error (.indexError "list index out of range")) :=
  ⟨by decide, by decide, get_digits_index_out_of_range 7 2 [7] true (by decide) (by decide)⟩

/-- C9: when the tally of non-excluded digits is empty — the empty
sequence, or zero exclusion with every element carrying digit 0 at the
requested index — `digit_occurrences` raises `IndexError` while splitting
the empty result array, rather than returning two empty arrays. -/
theorem digit_occurrences_empty_tally
    (sequence : List Nat) (idx : Nat) (ez : Bool)
    (h : sequence = [] ∨ (ez = true ∧ ∀ m ∈ sequence, digit_at m idx = .ok 0)) :
    digit_occurrences sequence idx ez = .error (.indexError "too many indices for array") := by
  rcases h with h | ⟨hez, hall⟩
  · subst h
    cases ez <;> rfl
  · subst hez
    have hfd : mapE (fun number => digit_at number idx) sequence =
        .ok (sequence.map fun _ => 0) := mapE_congr_ok sequence hall
    rw [digit_occurrences, hfd, ok_bind]
    have hpairs : sortedDigitPairs (sequence.map fun _ => 0) true = [] := by
      rw [sortedDigitPairs, sortedKeys]
      have hfil : ((sequence.map fun _ => (0 : Nat)).dedup.filter (fun d => d != 0)) = [] := by
        rw [List.filter_eq_nil_iff]
        intro a ha
        have ha2 : a ∈ (sequence.map fun _ => (0 : Nat)) := List.mem_dedup.mp ha
        rcases List.mem_map.mp ha2 with ⟨x, _, hx⟩
        subst hx
        simp
      rw [if_pos rfl, hfil]
      rfl
    rw [if_pos hpairs]

/-- Witness for C9: both elements of the sequence 105, 209 have digit 0 at
digit index 1, and zero exclusion empties the tally. -/
theorem digit_occurrences_empty_tally_w :
    (([105, 209] : List Nat) = [] ∨
      (true = true ∧ ∀ m ∈ ([105, 209] : List Nat), digit_at m 1 = .ok 0)) ∧
    digit_occurrences [105, 209] 1 true = .error (.indexError "too many indices for array") :=
  ⟨Or.inr ⟨rfl, by decide⟩,
   digit_occurrences_empty_tally [105, 209] 1 true (Or.inr ⟨rfl, by decide⟩)⟩

/-- C10: `bendford_dist` performs no input validation: it returns a list of
the same length as its input with no error path at all, and wherever the
digit array holds the value 0 the unguarded division `1 / 0` makes the
returned array hold infinity at that position instead of raising. -/
theorem bendford_dist_zero_inf (digits : List Nat) (i : Nat) (hi : i < digits.length)
    (h0 : digits[i] = 0) :
    (bendford_dist digits).length = digits.length ∧
    ∀ hj : i < (bendford_dist digits).length, (bendford_dist digits)[i] = NpFloat.inf := by
  constructor
  · simp [bendford_dist]
  · intro hj
    simp only [bendford_dist] at hj ⊢
    rw [List.getElem_map, h0]
    simp [np_recip, NpFloat.add, log_n, NpFloat.logE, NpFloat.divByPos]

/-- Witness for C10 on the one-element digit array holding 0. -/
theorem bendford_dist_zero_inf_w :
    ([0] : List Nat)[0] = 0 ∧
    ((bendford_dist [0]).length = ([0] : List Nat).length ∧
     ∀ hj : 0 < (bendford_dist [0]).length, (bendford_dist [0])[0] = NpFloat.inf) :=
  ⟨by decide, bendford_dist_zero_inf [0] 0 (by decide) (by decide)⟩

/-- C4: order 1 of `bendford_dist_` (computed with `np.log10`) is
elementwise equal — exactly, in real arithmetic, hence within any
floating-point tolerance — to `bendford_dist` (computed with the
base-change identity `np.log(x) / np.log(10)`) applied to the digits
1 through 9. -/
theorem bendford_order1_eq_single :
    Except.map (fun l => l.map NpFloat.fin) (bendford_dist_ 1) =
      .ok (bendford_dist [1, 2, 3, 4, 5, 6, 7, 8, 9]) := by
  rw [bendford_dist_, if_neg (by norm_num)]
  have hr : npArange (wrapInt64 (10 ^ ((1 : Int).toNat - 1))) (wrapInt64 (10 ^ (1 : Int).toNat)) =
      [1, 2, 3, 4, 5, 6, 7, 8, 9] := by decide
  rw [hr]
  simp [Except.map, bendford_dist, log_n, NpFloat.add, np_recip, NpFloat.logE,
    NpFloat.divByPos, Real.logb]

theorem wrapInt64_eq_self {x : Int} (h0 : 0 ≤ x) (h : x < 2 ^ 63) : wrapInt64 x = x := by
  rw [wrapInt64]
  omega

theorem pow10_lt_two_pow_63 {m : Nat} (h : m ≤ 18) : (10 : Int) ^ m < 2 ^ 63 :=
  lt_of_le_of_lt (pow_le_pow_right₀ (by norm_num) h) (by norm_num)

theorem npArange_natCast (a b : Nat) :
    npArange (a : Int) (b : Int) = (List.range' a (b - a)).map (fun g : Nat => (g : Int)) := by
  rw [npArange, List.range'_eq_map_range, List.map_map]
  have ht : ((b : Int) - (a : Int)).toNat = b - a := by omega
  rw [ht]
  apply List.map_congr_left
  intro i _
  simp

/-- On orders 1 to 18 the int64 powers do not wrap, and the returned list
is the log10 image of the ascending enumeration of [10^(k-1), 10^k). -/
theorem bendford_dist_ok (k : Int) (hk : 1 ≤ k) (h18 : k ≤ 18) :
    bendford_dist_ k =
      .ok ((List.range' (10 ^ (k.toNat - 1)) (10 ^ k.toNat - 10 ^ (k.toNat - 1))).map
        (fun g : Nat => Real.logb 10 (1 + 1 / (g : ℝ)))) := by
  rw [bendford_dist_, if_neg (by omega)]
  have hm1 : (10 : Int) ^ (k.toNat - 1) = ((10 ^ (k.toNat - 1) : Nat) : Int) := by push_cast; ring
  have hm2 : (10 : Int) ^ k.toNat = ((10 ^ k.toNat : Nat) : Int) := by push_cast; ring
  have hb1 : (10 : Int) ^ (k.toNat - 1) < 2 ^ 63 := pow10_lt_two_pow_63 (by omega)
  have hb2 : (10 : Int) ^ k.toNat < 2 ^ 63 := pow10_lt_two_pow_63 (by omega)
  rw [hm1] at hb1
  rw [hm2] at hb2
  rw [hm1, hm2, wrapInt64_eq_self (by positivity) hb1, wrapInt64_eq_self (by positivity) hb2,
    npArange_natCast, List.map_map]
  congr 1

/-- C3 is false as stated: at order 19 the int64 `np.power(10, 19)` wraps
to -8446744073709551616, the arange domain is empty, and `bendford_dist_`
returns the empty list even though [10^18, 10^19) holds 9·10^18 groups. -/
theorem bendford_dist_19_empty :
    bendford_dist_ 19 = .ok ([] : List ℝ) ∧
    wrapInt64 (10 ^ 19) = -8446744073709551616 ∧
    (0 : Nat) < 10 ^ 19 - 10 ^ 18 :=
  ⟨rfl, rfl, by norm_num⟩

/-- C3 (amended): for every order k with 1 ≤ k ≤ 18, `bendford_dist_ k`
returns the list that assigns to each digit group g in [10^(k-1), 10^k),
enumerated in ascending order, the probability log10(1 + 1/g); for every
k < 1 it raises `ValueError` instead of returning.  From order 19 on the
int64 power computation wraps, and at order 19 the result is empty. -/
theorem bendford_dist_spec (k : Int) :
    (k < 1 → bendford_dist_ k = .error (.valueError "Order cannot be less than 1.")) ∧
    (1 ≤ k → k ≤ 18 → ∃ l : List ℝ, bendford_dist_ k = .ok l ∧
      l.length = 10 ^ k.toNat - 10 ^ (k.toNat - 1) ∧
      ∀ i (hi : i < l.length),
        l[i] = Real.logb 10 (1 + 1 / ((10 ^ (k.toNat - 1) + i : Nat) : ℝ))) := by
  constructor
  · intro hk
    rw [bendford_dist_, if_pos hk]
  · intro hk h18
    refine ⟨_, bendford_dist_ok k hk h18, by simp, ?_⟩
    intro i hi
    simp only [List.length_map, List.length_range'] at hi
    simp [List.getElem_range' i (by simpa using hi)]

/-- Witness for the amended C3 at the orders 0 (validation failure)
and 1. -/
theorem bendford_dist_spec_w :
    ((0 : Int) < 1 ∧ bendford_dist_ 0 = .error (.valueError "Order cannot be less than 1.")) ∧
    ((1 : Int) ≤ 1 ∧ (1 : Int) ≤ 18 ∧ ∃ l : List ℝ, bendford_dist_ 1 = .ok l ∧
      l.length = 10 ^ (1 : Int).toNat - 10 ^ ((1 : Int).toNat - 1) ∧
      ∀ i (hi : i < l.length),
        l[i] = Real.logb 10 (1 + 1 / ((10 ^ ((1 : Int).toNat - 1) + i : Nat) : ℝ))) :=
  ⟨⟨by decide, (bendford_dist_spec 0).1 (by decide)⟩,
   ⟨by decide, by decide, (bendford_dist_spec 1).2 (by decide) (by decide)⟩⟩

theorem logb_telescope : ∀ (n a : Nat), 0 < a →
    ((List.range' a n).map (fun g : Nat => Real.logb 10 (1 + 1 / (g : ℝ)))).sum =
      Real.logb 10 ((a + n : Nat) : ℝ) - Real.logb 10 ((a : Nat) : ℝ)
  | 0, a, _ => by simp
  | n + 1, a, ha => by
    rw [List.range'_succ]
    simp only [List.map_cons, List.sum_cons]
    rw [logb_telescope n (a + 1) (by omega)]
    have ha0 : ((a : Nat) : ℝ) ≠ 0 := Nat.cast_ne_zero.mpr ha.ne'
    have ha1 : ((a + 1 : Nat) : ℝ) ≠ 0 := Nat.cast_ne_zero.mpr (Nat.succ_ne_zero a)
    have h1 : (1 : ℝ) + 1 / ((a : Nat) : ℝ) = ((a + 1 : Nat) : ℝ) / ((a : Nat) : ℝ) := by
      push_cast
      field_simp
    rw [h1, Real.logb_div ha1 ha0]
    have h2 : (a + (n + 1) : Nat) = ((a + 1) + n : Nat) := by omega
    rw [h2]
    ring

/-- C5 is false as stated: at order 19 `bendford_dist_` returns the empty
list, whose sum is 0, not 1. -/
theorem bendford_dist_19_sum_zero :
    bendford_dist_ 19 = .ok ([] : List ℝ) ∧ ([] : List ℝ).sum = 0 ∧ (0 : ℝ) < 1 :=
  ⟨rfl, rfl, by norm_num⟩

/-- C5 (amended): for every order k with 1 ≤ k ≤ 18 the probabilities
returned by `bendford_dist_ k` sum (telescopically) to exactly 1 in real
arithmetic, hence to 1 within any floating-point tolerance; in particular
the order-1 values over the digits 1 through 9 sum to 1.  At order 19 the
int64 wrap empties the result and the sum is 0. -/
theorem bendford_dist_sum_one (k : Int) (hk : 1 ≤ k) (hk18 : k ≤ 18) (l : List ℝ)
    (hl : bendford_dist_ k = .ok l) : l.sum = 1 := by
  rw [bendford_dist_ok k hk hk18] at hl
  obtain rfl := Except.ok.inj hl
  rw [logb_telescope _ _ (by positivity)]
  have hle : 10 ^ (k.toNat - 1) ≤ 10 ^ k.toNat :=
    Nat.pow_le_pow_right (by norm_num) (by omega)
  have hsum : 10 ^ (k.toNat - 1) + (10 ^ k.toNat - 10 ^ (k.toNat - 1)) = 10 ^ k.toNat := by
    omega
  rw [hsum]
  have h10 : ∀ m : Nat, Real.logb 10 ((10 ^ m : Nat) : ℝ) = m := by
    intro m
    push_cast
    rw [Real.logb_pow, Real.logb_self_eq_one (by norm_num)]
    ring
  rw [h10, h10]
  have h1 : 1 ≤ k.toNat := by omega
  rw [Nat.cast_sub h1]
  push_cast
  ring

/-- Witness for the amended C5 at order 1. -/
theorem bendford_dist_sum_one_w :
    (1 : Int) ≤ 1 ∧ (1 : Int) ≤ 18 ∧
    bendford_dist_ 1 =
      .ok ((List.range' 1 9).map (fun g : Nat => Real.logb 10 (1 + 1 / (g : ℝ)))) ∧
    ((List.range' 1 9).map (fun g : Nat => Real.logb 10 (1 + 1 / (g : ℝ)))).sum = 1 := by
  have hok : bendford_dist_ 1 =
      .ok ((List.range' 1 9).map (fun g : Nat => Real.logb 10 (1 + 1 / (g : ℝ)))) := by
    have h := bendford_dist_ok 1 (by norm_num) (by norm_num)
    simpa using h
  exact ⟨by decide, by decide, hok, bendford_dist_sum_one 1 (by decide) (by decide) _ hok⟩

end BendfordsLaw
